import Mathlib

/-!
Verification of the Azure Private DNS challenge provider
(`providers/dns/azure/private.go`).

The provider's three operations — `Present`, `CleanUp` and the private
helper `getHostedZoneID` — are shallowly embedded below.  External
collaborators (the environment variable lookup, the `dns01` suffix walk,
the Azure zone-read / record-read / record-write / record-delete
endpoints) are modelled as an `Env` record of per-call oracles, and each
outbound network call is recorded in a trace so that claims about which
calls happen (and which do not) are statable.
-/

namespace AzurePrivate

/-- Embedding of `privatedns.TxtRecord`: `Value *[]string` is an optional
list of strings. -/
structure TxtRecord where
  value : Option (List String)
deriving DecidableEq, Repr

/-- Embedding of `privatedns.RecordSetProperties`: the TTL and the
optional list of TXT records (`TxtRecords *[]TxtRecord`). -/
structure RecordSetProperties where
  ttl : Option Int
  txtRecords : Option (List TxtRecord)
deriving DecidableEq, Repr

/-- Embedding of `privatedns.RecordSet`: the name pointer and the
embedded `*RecordSetProperties` pointer (nil in the zero value). -/
structure RecordSet where
  name : Option String
  recordSetProperties : Option RecordSetProperties
deriving DecidableEq, Repr

/-- Errors coming back from the Azure management API: either an
`autorest.DetailedError` carrying an HTTP status code, or any other
error. -/
inductive AzureError
  | detailed (statusCode : Nat) (message : String)
  | plain (message : String)
deriving DecidableEq, Repr

/-- The `errors.As(err, &detailed) && detailed.StatusCode == http.StatusNotFound`
test in `Present`. -/
def AzureError.isNotFound : AzureError → Bool
  | .detailed 404 _ => true
  | _ => false

/-- The message carried by an Azure API error (used when the error is
wrapped with `fmt.Errorf("azure: %w", err)`). -/
def AzureError.message : AzureError → String
  | .detailed _ m => m
  | .plain m => m

/-- Embedding of `to.StringSlice`: dereference a `*[]string`, nil giving
the empty slice. -/
def toStringSlice (v : Option (List String)) : List String :=
  v.getD []

/-- Embedding of `to.String`: dereference a `*string`, nil giving `""`. -/
def toStr (v : Option String) : String :=
  v.getD ""

/-- The outbound network calls the provider can make, recorded in order
in a trace. -/
inductive ApiCall
  | findZoneCall
  | zoneReadCall
  | recordGetCall
  | recordWriteCall
  | recordDeleteCall
deriving DecidableEq, Repr

/-- The slice of `Config` the embedded code reads. -/
structure Config where
  ttl : Int
  resourceGroup : String
  subscriptionID : String
deriving DecidableEq, Repr

/-- Per-call oracle for the external collaborators:
`zoneOverride` is `env.GetOrFile(EnvZoneName)` (`""` when unset);
`findZone` is the result of `dns01.FindZoneByFqdn` for the effective
FQDN; `zoneGet` is the zone-read endpoint keyed by the queried zone
name, returning the zone's `Name` pointer; `recordGet`,
`createOrUpdate` and `deleteRecordSet` are the record read / write /
delete endpoints at the call's `(zone, subDomain)`. -/
structure Env where
  zoneOverride : String
  findZone : Except String String
  zoneGet : String → Except String (Option String)
  recordGet : Except AzureError RecordSet
  createOrUpdate : Except AzureError Unit
  deleteRecordSet : Except AzureError Unit

/-- Suffix test on strings through their character lists. -/
def strEndsWith (s suffix : String) : Bool :=
  suffix.data.isSuffixOf s.data

/-- Removal of the last `n` characters of a string, through its
character list. -/
def strDropRight (s : String) (n : Nat) : String :=
  String.mk (s.data.take (s.data.length - n))

/-- Modelled from the spec: `dns01.UnFqdn` (not under `src/`) turns an
FQDN into a zone name "without trailing dot" by trimming a single
trailing dot when present. -/
def unFqdn (name : String) : String :=
  if strEndsWith name "." then strDropRight name 1 else name

/-- Modelled from the spec: `dns01.ToFqdn` (not under `src/`) appends a
trailing dot when the name does not already end in one. -/
def toFqdn (name : String) : String :=
  if strEndsWith name "." then name else name ++ "."

/-- Modelled from the spec: `dns01.ExtractSubDomain` (not under `src/`).
"The relative record name obtained by stripping the zone suffix from the
effective FQDN; must be non-empty after stripping or resolution fails",
failing with a `SubDomainExtractionError` when "the effective FQDN does
not extend the resolved zone name". -/
def extractSubDomain (domain zone : String) : Except String String :=
  let canonDomain := toFqdn domain
  let canonZone := toFqdn zone
  if canonDomain = canonZone then
    Except.error ("no subdomain because domain and zone are identical: " ++ canonDomain)
  else if strEndsWith canonDomain ("." ++ canonZone) then
    Except.ok (strDropRight canonDomain ("." ++ canonZone).data.length)
  else
    Except.error ("unable to extract subdomain: " ++ canonDomain ++ " is not a part of " ++ canonZone)

/-- Embedding of `dnsProviderPrivate.getHostedZoneID`.  Besides the
result it returns the trace of outbound calls it issued (the suffix-walk
lookup of `dns01.FindZoneByFqdn` and the provider zone-read endpoint). -/
def getHostedZoneID (env : Env) : Except String String × List ApiCall :=
  if env.zoneOverride ≠ "" then
    (Except.ok env.zoneOverride, [])
  else
    match env.findZone with
    | Except.error e => (Except.error e, [ApiCall.findZoneCall])
    | Except.ok authZone =>
        match env.zoneGet (unFqdn authZone) with
        | Except.error e => (Except.error e, [ApiCall.findZoneCall, ApiCall.zoneReadCall])
        | Except.ok nm =>
            (Except.ok (toStr nm), [ApiCall.findZoneCall, ApiCall.zoneReadCall])

/-- Insertion into the key list of the Go `map[string]struct{}`: adding
a key that is already present changes nothing. -/
def insertUniq (l : List String) (v : String) : List String :=
  if v ∈ l then l else l ++ [v]

/-- The unique-value merge in `Present`: a map seeded with
`info.Value`, then for each existing TXT record whose dereferenced value
slice is non-empty, its first element is added.  The map's key set is
modelled as a duplicate-free list in insertion order; the claims about
it are stated on its underlying set (`toFinset`), matching the map's
unspecified iteration order. -/
def mergeValues (value : String) (rset : RecordSet) : List String :=
  match rset.recordSetProperties with
  | none => [value]
  | some props =>
      match props.txtRecords with
      | none => [value]
      | some records =>
          records.foldl
            (fun acc r =>
              match toStringSlice r.value with
              | [] => acc
              | v :: _ => insertUniq acc v)
            [value]

/-- The record set `Present` writes back: its name, the TTL taken from
configuration, and its single-valued TXT values. -/
structure WrittenRecord where
  name : String
  ttl : Int
  values : List String
deriving DecidableEq

/-- The tail of `Present` after a successful (or 404-swallowed) record
read: build the unique value set and call `CreateOrUpdate`. -/
def presentWrite (cfg : Config) (env : Env) (subDomain value : String)
    (rset : RecordSet) (t : List ApiCall) :
    Except String WrittenRecord × List ApiCall :=
  let uniq := mergeValues value rset
  match env.createOrUpdate with
  | Except.error e =>
      (Except.error ("azure: " ++ e.message), t ++ [ApiCall.recordWriteCall])
  | Except.ok _ =>
      (Except.ok ⟨subDomain, cfg.ttl, uniq⟩, t ++ [ApiCall.recordWriteCall])

/-- Embedding of `dnsProviderPrivate.Present`: resolve the zone, extract
the subdomain, read the existing record set (a 404 is swallowed and the
zero-value `RecordSet` is used), merge, and upsert.  Every error is
wrapped as `"azure: " ++ e`.  The second component is the trace of
outbound calls. -/
def Present (cfg : Config) (env : Env) (effectiveFQDN value : String) :
    Except String WrittenRecord × List ApiCall :=
  match getHostedZoneID env with
  | (Except.error e, t) => (Except.error ("azure: " ++ e), t)
  | (Except.ok zone, t) =>
      match extractSubDomain effectiveFQDN zone with
      | Except.error e => (Except.error ("azure: " ++ e), t)
      | Except.ok subDomain =>
          match env.recordGet with
          | Except.error e =>
              if e.isNotFound then
                presentWrite cfg env subDomain value ⟨none, none⟩
                  (t ++ [ApiCall.recordGetCall])
              else
                (Except.error ("azure: " ++ e.message), t ++ [ApiCall.recordGetCall])
          | Except.ok rset =>
              presentWrite cfg env subDomain value rset (t ++ [ApiCall.recordGetCall])

/-- Embedding of `dnsProviderPrivate.CleanUp`: resolve the zone, extract
the subdomain, delete the whole TXT record set.  Every error is wrapped
as `"azure: " ++ e`. -/
def CleanUp (env : Env) (effectiveFQDN : String) :
    Except String Unit × List ApiCall :=
  match getHostedZoneID env with
  | (Except.error e, t) => (Except.error ("azure: " ++ e), t)
  | (Except.ok zone, t) =>
      match extractSubDomain effectiveFQDN zone with
      | Except.error e => (Except.error ("azure: " ++ e), t)
      | Except.ok _subDomain =>
          match env.deleteRecordSet with
          | Except.error e =>
              (Except.error ("azure: " ++ e.message), t ++ [ApiCall.recordDeleteCall])
          | Except.ok _ =>
              (Except.ok (), t ++ [ApiCall.recordDeleteCall])

/-- The TXT records of a record set, nil pointers giving the empty
list. -/
def txtRecordsOf (rset : RecordSet) : List TxtRecord :=
  match rset.recordSetProperties with
  | none => []
  | some props => props.txtRecords.getD []

/-- The first element of each existing record's dereferenced value
slice, for records whose slice is non-empty. -/
def firstValues (records : List TxtRecord) : List String :=
  records.filterMap (fun r => (toStringSlice r.value).head?)

/-- The concrete record set `Present`'s upsert stores: one single-valued
TXT record per merged value. -/
def writtenRecordSet (subDomain : String) (ttl : Int) (values : List String) :
    RecordSet :=
  { name := some subDomain,
    recordSetProperties := some
      { ttl := some ttl,
        txtRecords := some (values.map (fun v => { value := some [v] })) } }

/-- Modelled from the spec: the upstream record-delete endpoint — "A
delete against a non-existent record set must succeed or no-op rather
than error".  Given the store at the target name it returns the call's
result and the store afterwards: the delete always succeeds and leaves
no record set behind. -/
def deleteEndpoint (_store : Option RecordSet) :
    Except AzureError Unit × Option RecordSet :=
  (Except.ok (), none)

/-- Modelled from the spec: the upstream record-read endpoint answers a
read at a name with no record set with an HTTP 404-equivalent
`DetailedError` ("a 'not found' response (HTTP 404-equivalent)"). -/
def storeGet : Option RecordSet → Except AzureError RecordSet
  | none => Except.error (AzureError.detailed 404 "ResourceNotFound")
  | some r => Except.ok r

/-- An environment backed by the state `store` of the record set at the
call's `(zone, subDomain)`: the record read answers from the store and
the write succeeds.  The zone is supplied by the override so that both
runs of an idempotence experiment resolve identically. -/
def envOfStore (zoneOverride : String) (store : Option RecordSet) : Env :=
  { zoneOverride := zoneOverride,
    findZone := Except.error "unused",
    zoneGet := fun _ => Except.error "unused",
    recordGet := storeGet store,
    createOrUpdate := Except.ok (),
    deleteRecordSet := (deleteEndpoint store).1 }

/-- One `Present` call against the store: on success the store now holds
the record set that was written. -/
def presentStep (cfg : Config) (zoneOverride effectiveFQDN value : String)
    (store : Option RecordSet) :
    Except String WrittenRecord × Option RecordSet :=
  match Present cfg (envOfStore zoneOverride store) effectiveFQDN value with
  | (Except.ok w, _) => (Except.ok w, some (writtenRecordSet w.name w.ttl w.values))
  | (Except.error e, _) => (Except.error e, store)

/-- `insertUniq` on the underlying set is `insert`. -/
theorem insertUniq_toFinset (l : List String) (v : String) :
    (insertUniq l v).toFinset = insert v l.toFinset := by
  unfold insertUniq
  split
  · rw [Finset.insert_eq_self.mpr (by simpa using ‹v ∈ l›)]
  · ext x
    simp [List.mem_append, or_comm]

/-- `insertUniq` keeps the key list duplicate-free. -/
theorem insertUniq_nodup (l : List String) (v : String) (h : l.Nodup) :
    (insertUniq l v).Nodup := by
  unfold insertUniq
  split
  · exact h
  · next hv =>
      refine List.Nodup.append h (List.nodup_singleton v) ?_
      intro x hx hx2
      rw [List.mem_singleton] at hx2
      subst hx2
      exact hv hx

/-- `insertUniq` never removes an element. -/
theorem mem_insertUniq_of_mem (l : List String) (v x : String) (h : x ∈ l) :
    x ∈ insertUniq l v := by
  unfold insertUniq
  split
  · exact h
  · exact List.mem_append_left _ h

/-- Folding `Present`'s merge step over a record list adds exactly the
first values of the records to the accumulator's set. -/
theorem foldl_merge_toFinset (records : List TxtRecord) (init : List String) :
    (records.foldl
      (fun acc r =>
        match toStringSlice r.value with
        | [] => acc
        | v :: _ => insertUniq acc v)
      init).toFinset = init.toFinset ∪ (firstValues records).toFinset := by
  induction records generalizing init with
  | nil => simp [firstValues]
  | cons r rest ih =>
      cases hv : toStringSlice r.value with
      | nil =>
          simp only [List.foldl_cons, hv, firstValues, List.filterMap_cons]
          simpa [firstValues] using ih init
      | cons v vs =>
          simp only [List.foldl_cons, hv, firstValues, List.filterMap_cons,
            List.head?_cons, List.toFinset_cons]
          rw [show (firstValues rest) = rest.filterMap
              (fun r => (toStringSlice r.value).head?) from rfl] at ih
          rw [ih (insertUniq init v), insertUniq_toFinset,
            Finset.insert_union, Finset.union_insert]

/-- Folding `Present`'s merge step keeps the key list duplicate-free. -/
theorem foldl_merge_nodup (records : List TxtRecord) (init : List String)
    (h : init.Nodup) :
    (records.foldl
      (fun acc r =>
        match toStringSlice r.value with
        | [] => acc
        | v :: _ => insertUniq acc v)
      init).Nodup := by
  induction records generalizing init with
  | nil => exact h
  | cons r rest ih =>
      cases hv : toStringSlice r.value with
      | nil => simpa [List.foldl_cons, hv] using ih init h
      | cons v vs =>
          simpa [List.foldl_cons, hv] using ih (insertUniq init v) (insertUniq_nodup _ _ h)

/-- Folding `Present`'s merge step never removes an element. -/
theorem foldl_merge_mem (records : List TxtRecord) (init : List String)
    (x : String) (h : x ∈ init) :
    x ∈ records.foldl
      (fun acc r =>
        match toStringSlice r.value with
        | [] => acc
        | v :: _ => insertUniq acc v)
      init := by
  induction records generalizing init with
  | nil => exact h
  | cons r rest ih =>
      cases hv : toStringSlice r.value with
      | nil => simpa [List.foldl_cons, hv] using ih init h
      | cons v vs =>
          simpa [List.foldl_cons, hv] using
            ih (insertUniq init v) (mem_insertUniq_of_mem _ _ _ h)

/-- The merged key set is the merged value plus the set of first values
of the existing records. -/
theorem mergeValues_toFinset (value : String) (rset : RecordSet) :
    (mergeValues value rset).toFinset
      = insert value (firstValues (txtRecordsOf rset)).toFinset := by
  obtain ⟨nm, props⟩ := rset
  cases props with
  | none => simp [mergeValues, txtRecordsOf, firstValues]
  | some p =>
      obtain ⟨t0, records⟩ := p
      cases records with
      | none => simp [mergeValues, txtRecordsOf, firstValues]
      | some l =>
          simp only [mergeValues, txtRecordsOf, Option.getD_some]
          rw [foldl_merge_toFinset]
          simp [← Finset.insert_eq]

/-- The merged key list has no duplicates. -/
theorem mergeValues_nodup (value : String) (rset : RecordSet) :
    (mergeValues value rset).Nodup := by
  obtain ⟨nm, props⟩ := rset
  cases props with
  | none => simp [mergeValues]
  | some p =>
      obtain ⟨t0, records⟩ := p
      cases records with
      | none => simp [mergeValues]
      | some l => exact foldl_merge_nodup l [value] (List.nodup_singleton value)

/-- The challenge value is always among the merged values. -/
theorem mem_mergeValues_self (value : String) (rset : RecordSet) :
    value ∈ mergeValues value rset := by
  obtain ⟨nm, props⟩ := rset
  cases props with
  | none => simp [mergeValues]
  | some p =>
      obtain ⟨t0, records⟩ := p
      cases records with
      | none => simp [mergeValues]
      | some l => exact foldl_merge_mem l [value] value (by simp)

/-- The first values of the record set `Present` writes are exactly the
merged values. -/
theorem firstValues_written (sub : String) (ttl : Int) (l : List String) :
    firstValues (txtRecordsOf (writtenRecordSet sub ttl l)) = l := by
  unfold firstValues txtRecordsOf writtenRecordSet
  simp only [Option.getD_some, List.filterMap_map]
  exact List.filterMap_some _

/-- Folding plain `insertUniq` over fresh, duplicate-free keys appends
them. -/
theorem foldl_insertUniq_append (rest : List String) (acc : List String)
    (hnd : rest.Nodup) (hdisj : ∀ x ∈ rest, x ∉ acc) :
    rest.foldl insertUniq acc = acc ++ rest := by
  induction rest generalizing acc with
  | nil => simp
  | cons x xs ih =>
      have hx : x ∉ acc := hdisj x (List.mem_cons_self x xs)
      rw [List.foldl_cons, show insertUniq acc x = acc ++ [x] by simp [insertUniq, hx]]
      rw [ih (acc ++ [x]) hnd.of_cons]
      · simp
      · intro y hy
        simp only [List.mem_append, List.mem_singleton]
        rintro (hyacc | rfl)
        · exact hdisj y (List.mem_cons_of_mem _ hy) hyacc
        · exact (List.nodup_cons.mp hnd).1 hy

/-- Re-merging a value into the record set written for a previous merge
result gives the very same list back. -/
theorem mergeValues_writtenRecordSet (v sub : String) (ttl : Int)
    (rest : List String) (hnd : (v :: rest).Nodup) :
    mergeValues v (writtenRecordSet sub ttl (v :: rest)) = v :: rest := by
  show ((v :: rest).map (fun w => ({ value := some [w] } : TxtRecord))).foldl _ [v] = _
  rw [List.foldl_map]
  show (v :: rest).foldl insertUniq [v] = v :: rest
  rw [List.foldl_cons, show insertUniq [v] v = [v] by simp [insertUniq]]
  rw [foldl_insertUniq_append rest [v] hnd.of_cons]
  · rfl
  · intro y hy
    simp only [List.mem_singleton]
    rintro rfl
    exact (List.nodup_cons.mp hnd).1 hy

/-- Every merge result starts with the merged value. -/
theorem mergeValues_cons (value : String) (rset : RecordSet) :
    ∃ rest, mergeValues value rset = value :: rest := by
  obtain ⟨nm, props⟩ := rset
  have key : ∀ (records : List TxtRecord) (acc : List String) (rest0 : List String),
      acc = value :: rest0 →
      ∃ rest, records.foldl
        (fun acc r =>
          match toStringSlice r.value with
          | [] => acc
          | v :: _ => insertUniq acc v)
        acc = value :: rest := by
    intro records
    induction records with
    | nil => intro acc rest0 h; exact ⟨rest0, h⟩
    | cons r rs ih =>
        intro acc rest0 h
        cases hv : toStringSlice r.value with
        | nil => simpa [List.foldl_cons, hv] using ih acc rest0 h
        | cons v vs =>
            simp only [List.foldl_cons, hv]
            unfold insertUniq
            split
            · exact ih acc rest0 h
            · exact ih (acc ++ [v]) (rest0 ++ [v]) (by simp [h])
  cases props with
  | none => exact ⟨[], rfl⟩
  | some p =>
      obtain ⟨t0, records⟩ := p
      cases records with
      | none => exact ⟨[], rfl⟩
      | some l => exact key l [value] [] rfl

/-- The zone resolver's trace is one of three concrete lists. -/
theorem getHostedZoneID_trace_cases (env : Env) :
    (getHostedZoneID env).2 = [] ∨
    (getHostedZoneID env).2 = [ApiCall.findZoneCall] ∨
    (getHostedZoneID env).2 = [ApiCall.findZoneCall, ApiCall.zoneReadCall] := by
  unfold getHostedZoneID
  split
  · exact Or.inl rfl
  · cases hf : env.findZone with
    | error e => simp
    | ok authZone =>
        cases hz : env.zoneGet (unFqdn authZone) with
        | error e => simp [hz]
        | ok nm => simp [hz]

/-- C4: when an explicit zone-name override is configured (non-empty
from environment or file), zone resolution returns the override string
verbatim and performs no network call — the trace is empty, so neither
the suffix-walk lookup nor the provider zone-read endpoint is invoked,
whatever those oracles would answer for the FQDN. -/
theorem zone_override_no_network (env : Env) (h : env.zoneOverride ≠ "") :
    getHostedZoneID env = (Except.ok env.zoneOverride, []) := by
  simp [getHostedZoneID, h]

theorem zone_override_no_network_witness :
    (envOfStore "override.example.org" none).zoneOverride ≠ ""
      ∧ getHostedZoneID (envOfStore "override.example.org" none)
          = (Except.ok "override.example.org", []) :=
  ⟨by decide, zone_override_no_network (envOfStore "override.example.org" none) (by decide)⟩

/-- C5: during the merge, an existing TXT record contributes only the
first element of its value list — a string is among the merged values
exactly when it is the new challenge value or the head of some existing
record's dereferenced value list, so every string after the first in a
multi-string record is discarded (unless it occurs elsewhere). -/
theorem merge_first_value_only (value s : String) (rset : RecordSet) :
    s ∈ mergeValues value rset ↔
      s = value ∨ ∃ r ∈ txtRecordsOf rset, (toStringSlice r.value).head? = some s := by
  rw [← List.mem_toFinset, mergeValues_toFinset]
  simp [firstValues, List.mem_filterMap]

/-- An environment whose zone-read endpoint answers with a zone name
carrying a trailing dot. -/
def dottedZoneEnv : Env :=
  { zoneOverride := ""
    findZone := Except.ok "example.com."
    zoneGet := fun _ => Except.ok (some "example.com.")
    recordGet := Except.error (AzureError.plain "unused")
    createOrUpdate := Except.ok ()
    deleteRecordSet := Except.ok () }

/-- C6 counterexample: when the zone-read endpoint supplies the name
`"example.com."`, zone resolution returns it with its trailing dot
intact — the resolver performs no normalization. -/
theorem zone_trailing_dot_counterexample :
    (getHostedZoneID dottedZoneEnv).1 = Except.ok "example.com."
      ∧ strEndsWith "example.com." "." = true :=
  ⟨rfl, by decide⟩

/-- C6 amended: zone resolution returns the zone name supplied by the
zone-read endpoint verbatim (the empty string when the name is absent);
it does not strip a trailing dot, relying on the upstream API supplying
names without one. -/
theorem zone_name_returned_verbatim (env : Env) (z : String) (nm : Option String)
    (hov : env.zoneOverride = "")
    (hfz : env.findZone = Except.ok z)
    (hzg : env.zoneGet (unFqdn z) = Except.ok nm) :
    (getHostedZoneID env).1 = Except.ok (toStr nm) := by
  simp [getHostedZoneID, hov, hfz, hzg]

theorem zone_name_returned_verbatim_witness :
    (getHostedZoneID dottedZoneEnv).1 = Except.ok (toStr (some "example.com.")) :=
  zone_name_returned_verbatim dottedZoneEnv "example.com." (some "example.com.")
    rfl rfl rfl

/-- Configuration used by the concrete witnesses. -/
def testCfg : Config :=
  { ttl := 60, resourceGroup := "rg", subscriptionID := "subid" }

/-- An environment whose record read fails with a non-404 error. -/
def plainErrorEnv : Env :=
  { envOfStore "example.com" none with
      recordGet := Except.error (AzureError.plain "boom") }

/-- C3: when the record read fails with an HTTP 404-equivalent error,
`Present` does not fail on the fetch and proceeds to write a record set
containing exactly the single challenge value; when it fails with any
other error, `Present` returns that error wrapped with the provider
prefix. -/
theorem present_fetch_404_handling (cfg : Config) (env : Env)
    (fqdn value zone sub : String) (tz : List ApiCall) (e : AzureError)
    (hzone : getHostedZoneID env = (Except.ok zone, tz))
    (hsub : extractSubDomain fqdn zone = Except.ok sub)
    (hget : env.recordGet = Except.error e) :
    (e.isNotFound = true → env.createOrUpdate = Except.ok () →
        (Present cfg env fqdn value).1 = Except.ok ⟨sub, cfg.ttl, [value]⟩)
      ∧ (e.isNotFound = false →
        (Present cfg env fqdn value).1 = Except.error ("azure: " ++ e.message)) := by
  constructor
  · intro h404 hwrite
    simp [Present, hzone, hsub, hget, h404, presentWrite, hwrite, mergeValues]
  · intro h404
    simp [Present, hzone, hsub, hget, h404]

theorem present_fetch_404_handling_witness :
    (Present testCfg (envOfStore "example.com" none)
        "_acme-challenge.example.com" "val").1
      = Except.ok ⟨"_acme-challenge", 60, ["val"]⟩
    ∧ (Present testCfg plainErrorEnv "_acme-challenge.example.com" "val").1
      = Except.error "azure: boom" := by
  constructor
  · exact (present_fetch_404_handling testCfg (envOfStore "example.com" none)
      "_acme-challenge.example.com" "val" "example.com" "_acme-challenge" []
      (AzureError.detailed 404 "ResourceNotFound") rfl rfl rfl).1 rfl rfl
  · exact (present_fetch_404_handling testCfg plainErrorEnv
      "_acme-challenge.example.com" "val" "example.com" "_acme-challenge" []
      (AzureError.plain "boom") rfl rfl rfl).2 rfl

/-- C8: when subdomain extraction fails (the effective FQDN equals the
zone or does not extend it), both `Present` and `CleanUp` fail with the
wrapped extraction error and no record read, write, or delete call is
ever issued. -/
theorem subdomain_failure_blocks (cfg : Config) (env : Env)
    (fqdn value zone e : String) (tz : List ApiCall)
    (hzone : getHostedZoneID env = (Except.ok zone, tz))
    (hsub : extractSubDomain fqdn zone = Except.error e) :
    (Present cfg env fqdn value).1 = Except.error ("azure: " ++ e)
      ∧ (CleanUp env fqdn).1 = Except.error ("azure: " ++ e)
      ∧ ApiCall.recordGetCall ∉ (Present cfg env fqdn value).2
      ∧ ApiCall.recordWriteCall ∉ (Present cfg env fqdn value).2
      ∧ ApiCall.recordDeleteCall ∉ (CleanUp env fqdn).2 := by
  have htz := getHostedZoneID_trace_cases env
  rw [hzone] at htz
  refine ⟨?_, ?_, ?_, ?_, ?_⟩
  · simp [Present, hzone, hsub]
  · simp [CleanUp, hzone, hsub]
  · simp only [Present, hzone, hsub]
    rcases htz with h | h | h <;> (rw [show tz = _ from h]; decide)
  · simp only [Present, hzone, hsub]
    rcases htz with h | h | h <;> (rw [show tz = _ from h]; decide)
  · simp only [CleanUp, hzone, hsub]
    rcases htz with h | h | h <;> (rw [show tz = _ from h]; decide)

theorem subdomain_failure_blocks_witness :
    (Present testCfg (envOfStore "other.org" none)
        "_acme-challenge.example.com" "val").1
      = Except.error ("azure: "
          ++ "unable to extract subdomain: _acme-challenge.example.com. is not a part of other.org.")
    ∧ (CleanUp (envOfStore "other.org" none) "_acme-challenge.example.com").1
      = Except.error ("azure: "
          ++ "unable to extract subdomain: _acme-challenge.example.com. is not a part of other.org.")
    ∧ ApiCall.recordGetCall
        ∉ (Present testCfg (envOfStore "other.org" none)
            "_acme-challenge.example.com" "val").2
    ∧ ApiCall.recordWriteCall
        ∉ (Present testCfg (envOfStore "other.org" none)
            "_acme-challenge.example.com" "val").2
    ∧ ApiCall.recordDeleteCall
        ∉ (CleanUp (envOfStore "other.org" none) "_acme-challenge.example.com").2 :=
  subdomain_failure_blocks testCfg (envOfStore "other.org" none)
    "_acme-challenge.example.com" "val" "other.org"
    "unable to extract subdomain: _acme-challenge.example.com. is not a part of other.org."
    [] rfl rfl

/-- C1: for an existing TXT record set whose records carry the distinct
single values `a` and `b` — in either order — `Present` with a new
challenge value `c` writes back a record set whose set of values is
exactly `{a, b, c}` (the order of emitted records is immaterial, the
written values being compared as a set). -/
theorem present_merges_existing_pair (cfg : Config) (env : Env)
    (fqdn a b c zone sub : String) (tz : List ApiCall)
    (nm : Option String) (t0 : Option Int) (l : List TxtRecord)
    (hab : a ≠ b)
    (hzone : getHostedZoneID env = (Except.ok zone, tz))
    (hsub : extractSubDomain fqdn zone = Except.ok sub)
    (hperm : l.Perm [⟨some [a]⟩, ⟨some [b]⟩])
    (hget : env.recordGet = Except.ok ⟨nm, some ⟨t0, some l⟩⟩)
    (hwrite : env.createOrUpdate = Except.ok ()) :
    ∃ w : WrittenRecord,
      (Present cfg env fqdn c).1 = Except.ok w
        ∧ w.name = sub ∧ w.ttl = cfg.ttl
        ∧ w.values.toFinset = {a, b, c} := by
  have _hab := hab
  refine ⟨⟨sub, cfg.ttl, mergeValues c ⟨nm, some ⟨t0, some l⟩⟩⟩, ?_, rfl, rfl, ?_⟩
  · simp [Present, hzone, hsub, hget, presentWrite, hwrite]
  · rw [mergeValues_toFinset]
    have h2 : (firstValues (txtRecordsOf ⟨nm, some ⟨t0, some l⟩⟩)).Perm
        (firstValues [⟨some [a]⟩, ⟨some [b]⟩]) := hperm.filterMap _
    rw [List.toFinset_eq_of_perm _ _ h2]
    have h4 : firstValues [(⟨some [a]⟩ : TxtRecord), ⟨some [b]⟩] = [a, b] := rfl
    rw [h4]
    ext x
    simp
    tauto

/-- The two existing records of the C1 witness, carrying the single
values `"bval"` and `"aval"` in swapped order. -/
def pairRecords : List TxtRecord :=
  [⟨some ["bval"]⟩, ⟨some ["aval"]⟩]

/-- The existing record set of the C1 witness. -/
def pairRset : RecordSet :=
  ⟨some "_acme-challenge", some ⟨some 60, some pairRecords⟩⟩

theorem present_merges_existing_pair_witness :
    ∃ w : WrittenRecord,
      (Present testCfg (envOfStore "example.com" (some pairRset))
          "_acme-challenge.example.com" "cval").1 = Except.ok w
        ∧ w.name = "_acme-challenge" ∧ w.ttl = testCfg.ttl
        ∧ w.values.toFinset = {"aval", "bval", "cval"} :=
  present_merges_existing_pair testCfg (envOfStore "example.com" (some pairRset))
    "_acme-challenge.example.com" "aval" "bval" "cval" "example.com"
    "_acme-challenge" [] (some "_acme-challenge") (some 60) pairRecords
    (by decide) rfl rfl (by decide) rfl rfl

/-- C7: `CleanUp` at a `(zone, subDomain)` where no TXT record set
exists succeeds: the delete endpoint (modelled from the spec) no-ops on
an absent record set, so the provider returns no error. -/
theorem cleanup_on_absent_succeeds (zov fqdn sub : String)
    (hz : zov ≠ "") (hsub : extractSubDomain fqdn zov = Except.ok sub) :
    (CleanUp (envOfStore zov none) fqdn).1 = Except.ok () := by
  simp [CleanUp, getHostedZoneID, envOfStore, hz, hsub, deleteEndpoint]

theorem cleanup_on_absent_succeeds_witness :
    (CleanUp (envOfStore "example.com" none) "_acme-challenge.example.com").1
      = Except.ok () :=
  cleanup_on_absent_succeeds "example.com" "_acme-challenge.example.com"
    "_acme-challenge" (by decide) rfl

/-- Whenever `Present` succeeds, the record it wrote carries the merge
of the challenge value with some fetched record set. -/
theorem present_ok_shape (cfg : Config) (env : Env) (fqdn value : String)
    (w : WrittenRecord) (hok : (Present cfg env fqdn value).1 = Except.ok w) :
    ∃ rset, w.values = mergeValues value rset := by
  unfold Present at hok
  split at hok
  · simp at hok
  · split at hok
    · simp at hok
    · split at hok
      · split at hok
        · unfold presentWrite at hok
          split at hok
          · simp at hok
          · refine ⟨⟨none, none⟩, ?_⟩
            simp only at hok
            cases hok
            rfl
        · simp at hok
      · next rset heq =>
          unfold presentWrite at hok
          split at hok
          · simp at hok
          · refine ⟨rset, ?_⟩
            simp only at hok
            cases hok
            rfl

/-- C10: the merge skips an absent record-set properties object, an
absent TXT record list, a record with a nil value list, and a record
with an empty value list, without error and without contributing a
value; the merged values always contain the challenge value and are
never empty, so every record set `Present` writes contains the
challenge value. -/
theorem merge_skips_degenerate (value : String) :
    (∀ nm, mergeValues value ⟨nm, none⟩ = [value])
      ∧ (∀ nm t0, mergeValues value ⟨nm, some ⟨t0, none⟩⟩ = [value])
      ∧ (∀ nm t0 r rest, toStringSlice r.value = [] →
          mergeValues value ⟨nm, some ⟨t0, some (r :: rest)⟩⟩
            = mergeValues value ⟨nm, some ⟨t0, some rest⟩⟩)
      ∧ (∀ rset, value ∈ mergeValues value rset)
      ∧ (∀ rset, mergeValues value rset ≠ [])
      ∧ (∀ cfg env fqdn w, (Present cfg env fqdn value).1 = Except.ok w →
          value ∈ w.values ∧ w.values ≠ []) := by
  refine ⟨fun nm => rfl, fun nm t0 => rfl, ?_, mem_mergeValues_self value, ?_, ?_⟩
  · intro nm t0 r rest h
    simp only [mergeValues, List.foldl_cons, h]
  · intro rset hempty
    have hmem := mem_mergeValues_self value rset
    rw [hempty] at hmem
    exact absurd hmem (List.not_mem_nil value)
  · intro cfg env fqdn w hok
    obtain ⟨rset, hw⟩ := present_ok_shape cfg env fqdn value w hok
    constructor
    · rw [hw]; exact mem_mergeValues_self value rset
    · rw [hw]
      intro hempty
      have hmem := mem_mergeValues_self value rset
      rw [hempty] at hmem
      exact absurd hmem (List.not_mem_nil value)

theorem merge_skips_degenerate_witness :
    mergeValues "val" ⟨none, some ⟨some 60, some [⟨some []⟩]⟩⟩
        = mergeValues "val" ⟨none, some ⟨some 60, some []⟩⟩
      ∧ "val" ∈ mergeValues "val" ⟨none, none⟩
      ∧ "val" ∈ (WrittenRecord.mk "_acme-challenge" 60 ["val"]).values :=
  ⟨(merge_skips_degenerate "val").2.2.1 none (some 60) ⟨some []⟩ [] rfl,
   (merge_skips_degenerate "val").2.2.2.1 ⟨none, none⟩,
   ((merge_skips_degenerate "val").2.2.2.2.2 testCfg
      (envOfStore "example.com" none) "_acme-challenge.example.com"
      ⟨"_acme-challenge", 60, ["val"]⟩ rfl).1⟩

/-- Appending record-level calls to a zone-resolution trace keeps the
trace duplicate-free. -/
theorem zone_trace_append_nodup (env : Env) (r : Except String String)
    (t : List ApiCall) (heq : getHostedZoneID env = (r, t))
    (extra : List ApiCall) (hextra : extra.Nodup)
    (hf : ApiCall.findZoneCall ∉ extra) (hz : ApiCall.zoneReadCall ∉ extra) :
    (t ++ extra).Nodup := by
  have htc := getHostedZoneID_trace_cases env
  rw [heq] at htc
  rcases htc with h | h | h <;> subst h
  · simpa using hextra
  · simp [List.nodup_cons, hf, hextra]
  · simp [List.nodup_cons, hf, hz, hextra]

/-- C9: every error returned by `Present` or `CleanUp` — from zone
resolution, subdomain extraction, record read, record write, or record
delete — carries the provider prefix "azure: "; no outbound call is
retried (the trace never repeats a call); and after a record read fails
with a non-404 error no write is attempted. -/
theorem errors_wrapped_no_retry (cfg : Config) (env : Env) (fqdn value : String) :
    (∀ s, (Present cfg env fqdn value).1 = Except.error s →
        ∃ e0, s = "azure: " ++ e0)
      ∧ (∀ s, (CleanUp env fqdn).1 = Except.error s →
        ∃ e0, s = "azure: " ++ e0)
      ∧ (Present cfg env fqdn value).2.Nodup
      ∧ (CleanUp env fqdn).2.Nodup
      ∧ (∀ e, env.recordGet = Except.error e → e.isNotFound = false →
          ApiCall.recordWriteCall ∉ (Present cfg env fqdn value).2) := by
  refine ⟨?_, ?_, ?_, ?_, ?_⟩
  · intro s hs
    unfold Present at hs
    split at hs
    · exact ⟨_, by simpa using hs.symm⟩
    · split at hs
      · exact ⟨_, by simpa using hs.symm⟩
      · split at hs
        · split at hs
          · unfold presentWrite at hs
            split at hs
            · exact ⟨_, by simpa using hs.symm⟩
            · simp at hs
          · exact ⟨_, by simpa using hs.symm⟩
        · unfold presentWrite at hs
          split at hs
          · exact ⟨_, by simpa using hs.symm⟩
          · simp at hs
  · intro s hs
    unfold CleanUp at hs
    split at hs
    · exact ⟨_, by simpa using hs.symm⟩
    · split at hs
      · exact ⟨_, by simpa using hs.symm⟩
      · split at hs
        · exact ⟨_, by simpa using hs.symm⟩
        · simp at hs
  · unfold Present
    split
    · next e t heq =>
        simpa using zone_trace_append_nodup env _ t heq [] (by decide)
          (by decide) (by decide)
    · next zone t heq =>
        split
        · simpa using zone_trace_append_nodup env _ t heq [] (by decide)
            (by decide) (by decide)
        · split
          · split
            · unfold presentWrite
              split <;>
                simpa using zone_trace_append_nodup env _ t heq
                  [ApiCall.recordGetCall, ApiCall.recordWriteCall]
                  (by decide) (by decide) (by decide)
            · simpa using zone_trace_append_nodup env _ t heq
                [ApiCall.recordGetCall] (by decide) (by decide) (by decide)
          · unfold presentWrite
            split <;>
              simpa using zone_trace_append_nodup env _ t heq
                [ApiCall.recordGetCall, ApiCall.recordWriteCall]
                (by decide) (by decide) (by decide)
  · unfold CleanUp
    split
    · next e t heq =>
        simpa using zone_trace_append_nodup env _ t heq [] (by decide)
          (by decide) (by decide)
    · next zone t heq =>
        split
        · simpa using zone_trace_append_nodup env _ t heq [] (by decide)
            (by decide) (by decide)
        · split <;>
            simpa using zone_trace_append_nodup env _ t heq
              [ApiCall.recordDeleteCall] (by decide) (by decide) (by decide)
  · intro e hget h404
    have htc := getHostedZoneID_trace_cases env
    unfold Present
    split
    · next e2 t heq =>
        rw [heq] at htc
        rcases htc with h | h | h <;> subst h <;> simp
    · next zone t heq =>
        rw [heq] at htc
        split
        · rcases htc with h | h | h <;> subst h <;> simp
        · rw [hget]
          simp only [h404, Bool.false_eq_true, if_false]
          rcases htc with h | h | h <;> subst h <;> simp

theorem errors_wrapped_no_retry_witness :
    (∃ e0, "azure: unused" = "azure: " ++ e0)
      ∧ ApiCall.recordWriteCall
          ∉ (Present testCfg plainErrorEnv "_acme-challenge.example.com" "val").2 :=
  ⟨(errors_wrapped_no_retry testCfg (envOfStore "" none)
      "_acme-challenge.example.com" "val").1 "azure: unused" rfl,
   (errors_wrapped_no_retry testCfg plainErrorEnv
      "_acme-challenge.example.com" "val").2.2.2.2
      (AzureError.plain "boom") rfl rfl⟩

/-- The record set a store holds from `Present`'s point of view: the
zero-value `RecordSet` when the store is empty (the 404 case), the
stored record set otherwise. -/
def rsetOf : Option RecordSet → RecordSet
  | none => ⟨none, none⟩
  | some r => r

/-- A store-backed `Present` run with a configured zone override and a
well-formed subdomain always succeeds and writes the merge of the
challenge value with the stored record set. -/
theorem present_envOfStore (cfg : Config) (zov fqdn v sub : String)
    (store : Option RecordSet)
    (hz : zov ≠ "") (hsub : extractSubDomain fqdn zov = Except.ok sub) :
    Present cfg (envOfStore zov store) fqdn v
      = (Except.ok ⟨sub, cfg.ttl, mergeValues v (rsetOf store)⟩,
         [ApiCall.recordGetCall, ApiCall.recordWriteCall]) := by
  cases store with
  | none =>
      simp [Present, getHostedZoneID, envOfStore, hz, hsub, storeGet,
        AzureError.isNotFound, presentWrite, rsetOf]
  | some r =>
      simp [Present, getHostedZoneID, envOfStore, hz, hsub, storeGet,
        presentWrite, rsetOf]

/-- C2: `Present` is idempotent in the written value set: calling it a
second time with the same value — so that the fetch returns the record
set written by the first call — produces the very same written record
and store, and the written values carry no duplicate entry. -/
theorem present_idempotent (cfg : Config) (zov fqdn v : String)
    (store : Option RecordSet) (w : WrittenRecord) (st1 : Option RecordSet)
    (h : presentStep cfg zov fqdn v store = (Except.ok w, st1)) :
    presentStep cfg zov fqdn v st1 = (Except.ok w, st1) ∧ w.values.Nodup := by
  by_cases hz : zov = ""
  · exfalso
    have hp : Present cfg (envOfStore zov store) fqdn v
        = (Except.error ("azure: " ++ "unused"), [ApiCall.findZoneCall]) := by
      simp [Present, getHostedZoneID, envOfStore, hz]
    unfold presentStep at h
    rw [hp] at h
    simp at h
  · cases hs : extractSubDomain fqdn zov with
    | error e =>
        exfalso
        have hp : (Present cfg (envOfStore zov store) fqdn v).1
            = Except.error ("azure: " ++ e) := by
          simp [Present, getHostedZoneID, envOfStore, hz, hs]
        unfold presentStep at h
        rcases hpp : Present cfg (envOfStore zov store) fqdn v with ⟨r, t⟩
        rw [hpp] at h hp
        cases r with
        | error e2 => simp at h
        | ok w2 => simp at hp
    | ok sub =>
        have hp := present_envOfStore cfg zov fqdn v sub store hz hs
        unfold presentStep at h
        rw [hp] at h
        rw [Prod.mk.injEq] at h
        obtain ⟨hw, hst⟩ := h
        injection hw with hw
        subst hw
        subst hst
        obtain ⟨rest, hcons⟩ := mergeValues_cons v (rsetOf store)
        have hnd : (mergeValues v (rsetOf store)).Nodup :=
          mergeValues_nodup v (rsetOf store)
        have hmw : mergeValues v
            (writtenRecordSet sub cfg.ttl (mergeValues v (rsetOf store)))
            = mergeValues v (rsetOf store) := by
          rw [hcons] at hnd ⊢
          exact mergeValues_writtenRecordSet v sub cfg.ttl rest hnd
        have hp2 := present_envOfStore cfg zov fqdn v sub
          (some (writtenRecordSet sub cfg.ttl (mergeValues v (rsetOf store)))) hz hs
        refine ⟨?_, hnd⟩
        unfold presentStep
        rw [hp2]
        rw [show rsetOf (some (writtenRecordSet sub cfg.ttl (mergeValues v (rsetOf store))))
            = writtenRecordSet sub cfg.ttl (mergeValues v (rsetOf store)) from rfl, hmw]

theorem present_idempotent_witness :
    presentStep testCfg "example.com" "_acme-challenge.example.com" "val"
        (some (writtenRecordSet "_acme-challenge" 60 ["val"]))
      = (Except.ok ⟨"_acme-challenge", 60, ["val"]⟩,
         some (writtenRecordSet "_acme-challenge" 60 ["val"]))
    ∧ (WrittenRecord.mk "_acme-challenge" 60 ["val"]).values.Nodup :=
  present_idempotent testCfg "example.com" "_acme-challenge.example.com" "val"
    none ⟨"_acme-challenge", 60, ["val"]⟩
    (some (writtenRecordSet "_acme-challenge" 60 ["val"])) rfl

end AzurePrivate
